import Mathlib

/-!
Mandelbrot header (`lectures/lecture4/multithreaded_multigpu_example/mandelbrot.h`)

The header fixes the image grid, the iteration and colour bounds, the sampled
window of the complex plane and the per-pixel step sizes, and declares the
pixel evaluator `unsigned char mandelbrot(int Px, int Py)`.

Embedding used here:

* `unsigned int` constants are natural numbers; where 32-bit wrap-around
  matters it is written out with `% 2 ^ 32`.
* `double` constants are read as exact rationals (the decimal literal `-1.7`
  is the rational `-17/10`); these are `xmin`, `xmax`, `ymin`, `ymax`, `dx`,
  `dy`.
* The values the same declarations store as binary64 numbers are given
  separately, with round-to-nearest-even made explicit; these are `xmin64`,
  `xmax64`, `ymin64`, `ymax64`, `dx64`, `dy64`.
* `int` parameters are integers.
-/

namespace Mandelbrot

/-! ## Constants of the header -/

/-- Header line 1: `const unsigned int WIDTH=16384;` -/
def WIDTH : Nat := 16384

/-- Header line 2: `const unsigned int HEIGHT=16384;` -/
def HEIGHT : Nat := 16384

/-- Header line 3: `const unsigned int MAX_ITERS=100;` -/
def MAX_ITERS : Nat := 100

/-- Header line 4: `const unsigned int MAX_COLOR=255;` -/
def MAX_COLOR : Nat := 255

/-- Header line 5: `const double xmin=-1.7;` -/
def xmin : ℚ := -1.7

/-- Header line 6: `const double xmax=.5;` -/
def xmax : ℚ := 0.5

/-- Header line 7: `const double ymin=-1.2;` -/
def ymin : ℚ := -1.2

/-- Header line 8: `const double ymax=1.2;` -/
def ymax : ℚ := 1.2

/-- Header line 9: `const double dx=(xmax-xmin)/WIDTH;`
(the unsigned operand is converted to the floating type before dividing). -/
def dx : ℚ := (xmax - xmin) / (WIDTH : ℚ)

/-- Header line 10: `const double dy=(ymax-ymin)/HEIGHT;` -/
def dy : ℚ := (ymax - ymin) / (HEIGHT : ℚ)

/-! ## The pixel evaluator

The header only declares `unsigned char mandelbrot(int Px, int Py);` its body
is in another translation unit. The definitions below follow the contract of
the evaluator (specification, section 4.1), over exact rationals. -/

/-- Modelled from the spec: the pixel-to-plane map
`c = (xmin + Px*dx, ymin + Py*dy)` computed inside the body of `mandelbrot`,
which the header does not contain. -/
def pixelPoint (Px Py : Int) : ℚ × ℚ :=
  (xmin + (Px : ℚ) * dx, ymin + (Py : ℚ) * dy)

/-- Modelled from the spec: one step `z ← z² + c` of the escape-time
recurrence in the absent body of `mandelbrot`, on complex numbers given as
(real, imaginary) pairs. -/
def escapeStep (c z : ℚ × ℚ) : ℚ × ℚ :=
  (z.1 * z.1 - z.2 * z.2 + c.1, 2 * z.1 * z.2 + c.2)

/-- Squared modulus `|z|²` of a (real, imaginary) pair. -/
def normSq (z : ℚ × ℚ) : ℚ := z.1 * z.1 + z.2 * z.2

/-- Modelled from the spec: the loop of the absent body of `mandelbrot`,
counting the iterations of `z ← z² + c` performed before `|z|` exceeds the
escape radius 2 (that is, before `|z|² > 4`), with at most `fuel` iterations
left. -/
def escapeLoop (c : ℚ × ℚ) : Nat → ℚ × ℚ → Nat
  | 0, _ => 0
  | fuel + 1, z =>
    if 4 < normSq z then 0 else escapeLoop c fuel (escapeStep c z) + 1

/-- Modelled from the spec: the iteration count of the absent body of
`mandelbrot`, started from `z = 0` and capped at `MAX_ITERS`. -/
def escapeCount (c : ℚ × ℚ) : Nat := escapeLoop c MAX_ITERS (0, 0)

/-- Modelled from the spec: the colour derived from the iteration count in the
absent body of `mandelbrot`; the mapping is the linear scaling of the count
from `[0, MAX_ITERS]` to `[0, MAX_COLOR]` that section 9 names as the
standard choice. -/
def linearColor (n : Nat) : Nat := MAX_COLOR * n / MAX_ITERS

/-- Conversion of a non-negative integer to the declared return type
`unsigned char` (8 bits). -/
def toUChar (n : Nat) : Nat := n % 2 ^ 8

/-- Modelled from the spec: the pixel evaluator
`unsigned char mandelbrot(int Px, int Py)`, whose body is not in the header:
map the pixel to `c`, count the iterations of `z ← z² + c` from `z = 0`
(capped at `MAX_ITERS`) before `|z|` exceeds 2, and return the colour derived
from that count. -/
def mandelbrot (Px Py : Int) : Nat :=
  toUChar (linearColor (escapeCount (pixelPoint Px Py)))

/-! ## Binary64 reading of the floating-point constants

The header declares its window and step constants as `double`. The
definitions below give the values those declarations store: every literal and
every arithmetic operation is rounded to the nearest binary64 number, ties to
the even significand. All values that occur lie in the normal range, so
overflow and subnormal numbers are not modelled. -/

/-- Nearest integer to a rational, ties to the even integer. -/
def roundHalfEven (x : ℚ) : Int :=
  if x - (⌊x⌋ : ℚ) < 1 / 2 then ⌊x⌋
  else if 1 / 2 < x - (⌊x⌋ : ℚ) then ⌊x⌋ + 1
  else if ⌊x⌋ % 2 = 0 then ⌊x⌋ else ⌊x⌋ + 1

/-- Nearest binary64 value of a rational: for `2^e ≤ |x| < 2^(e+1)` the
spacing of binary64 numbers is `2^(e-52)` (53-bit significand), and `x` is
rounded to the nearest multiple of it, ties to even. -/
def toBinary64 (x : ℚ) : ℚ :=
  if x = 0 then 0
  else (roundHalfEven (x / 2 ^ (Int.log 2 |x| - 52)) : ℚ) * 2 ^ (Int.log 2 |x| - 52)

/-- Header line 5, stored value: `const double xmin=-1.7;` -/
def xmin64 : ℚ := toBinary64 (-1.7)

/-- Header line 6, stored value: `const double xmax=.5;` -/
def xmax64 : ℚ := toBinary64 0.5

/-- Header line 7, stored value: `const double ymin=-1.2;` -/
def ymin64 : ℚ := toBinary64 (-1.2)

/-- Header line 8, stored value: `const double ymax=1.2;` -/
def ymax64 : ℚ := toBinary64 1.2

/-- Header line 9, stored value: `const double dx=(xmax-xmin)/WIDTH;`
the subtraction and the division are each rounded; the conversion of
`WIDTH = 16384` to `double` is exact. -/
def dx64 : ℚ := toBinary64 (toBinary64 (xmax64 - xmin64) / (WIDTH : ℚ))

/-- Header line 10, stored value: `const double dy=(ymax-ymin)/HEIGHT;` -/
def dy64 : ℚ := toBinary64 (toBinary64 (ymax64 - ymin64) / (HEIGHT : ℚ))

/-- Modelled from the spec: the pixel-to-plane map
`c = (xmin + Px*dx, ymin + Py*dy)` of the absent body of `mandelbrot`,
evaluated in `double` arithmetic on the stored constants: the product and the
sum are each rounded. -/
def pixelPoint64 (Px Py : Int) : ℚ × ℚ :=
  (toBinary64 (xmin64 + toBinary64 ((Px : ℚ) * dx64)),
   toBinary64 (ymin64 + toBinary64 ((Py : ℚ) * dy64)))

/-- Modelled from the spec: the pixel-to-plane map
`c = (xmin + Px*dx, ymin + Py*dy)` of the absent body of `mandelbrot`,
evaluated on the stored constants with a fused multiply-add: the exact value
of `xmin + Px*dx` is rounded once. -/
def pixelPoint64Fused (Px Py : Int) : ℚ × ℚ :=
  (toBinary64 (xmin64 + (Px : ℚ) * dx64), toBinary64 (ymin64 + (Py : ℚ) * dy64))

/-- Modelled from the spec: the pixel-to-plane map
`c = (xmin + Px*dx, ymin + Py*dy)` of the absent body of `mandelbrot`,
evaluated without any rounding on the stored constants. -/
def pixelPoint64Exact (Px Py : Int) : ℚ × ℚ :=
  (xmin64 + (Px : ℚ) * dx64, ymin64 + (Py : ℚ) * dy64)

/-! ## Facts about the constants -/

theorem dx_val : dx = 11 / 81920 := by
  norm_num [dx, xmax, xmin, WIDTH]

theorem dy_val : dy = 3 / 20480 := by
  norm_num [dy, ymax, ymin, HEIGHT]

/-- C1: with the decimal literals read as exact rationals,
`dx = (xmax - xmin) / WIDTH = 2.2 / 16384` and
`dy = (ymax - ymin) / HEIGHT = 2.4 / 16384`, for the fixed constants
`xmin = -1.7`, `xmax = 0.5`, `ymin = -1.2`, `ymax = 1.2`,
`WIDTH = HEIGHT = 16384`. -/
theorem step_sizes_exact :
    xmin = -17 / 10 ∧ xmax = 1 / 2 ∧ ymin = -12 / 10 ∧ ymax = 12 / 10 ∧
    WIDTH = 16384 ∧ HEIGHT = 16384 ∧
    dx = (xmax - xmin) / (WIDTH : ℚ) ∧ dx = 2.2 / 16384 ∧
    dy = (ymax - ymin) / (HEIGHT : ℚ) ∧ dy = 2.4 / 16384 := by
  refine ⟨?_, ?_, ?_, ?_, rfl, rfl, rfl, ?_, rfl, ?_⟩
  · norm_num [xmin]
  · norm_num [xmax]
  · norm_num [ymin]
  · norm_num [ymax]
  · rw [dx_val]; norm_num
  · rw [dy_val]; norm_num

/-- C4: the window constants satisfy `xmin < xmax` and `ymin < ymax`
(with `xmin = -1.7`, `xmax = 0.5`, `ymin = -1.2`, `ymax = 1.2`). -/
theorem window_ordered :
    xmin < xmax ∧ ymin < ymax ∧
    xmin = -1.7 ∧ xmax = 0.5 ∧ ymin = -1.2 ∧ ymax = 1.2 := by
  refine ⟨?_, ?_, rfl, rfl, rfl, rfl⟩
  · norm_num [xmin, xmax]
  · norm_num [ymin, ymax]

/-- A quotient of a positive window extent by a positive grid size is
positive. -/
theorem extent_div_pos {lo hi : ℚ} {n : Nat} (h : lo < hi) (hn : 0 < n) :
    0 < (hi - lo) / (n : ℚ) := by
  have hn' : (0 : ℚ) < (n : ℚ) := by exact_mod_cast hn
  exact div_pos (sub_pos.mpr h) hn'

/-- C5: the derived step sizes are strictly positive, `dx > 0` and `dy > 0`;
this follows from `xmin < xmax`, `ymin < ymax` and `WIDTH, HEIGHT > 0`. -/
theorem steps_positive : 0 < dx ∧ 0 < dy := by
  have hx : xmin < xmax := by norm_num [xmin, xmax]
  have hy : ymin < ymax := by norm_num [ymin, ymax]
  have hw : 0 < WIDTH := by decide
  have hh : 0 < HEIGHT := by decide
  exact ⟨extent_div_pos hx hw, extent_div_pos hy hh⟩

/-- C6: `WIDTH` and `HEIGHT` are both 16384 and both strictly positive, so the
divisors in the definitions of `dx` and `dy` are non-zero. -/
theorem grid_positive :
    WIDTH = 16384 ∧ HEIGHT = 16384 ∧ 0 < WIDTH ∧ 0 < HEIGHT ∧
    (WIDTH : ℚ) ≠ 0 ∧ (HEIGHT : ℚ) ≠ 0 := by
  refine ⟨rfl, rfl, by decide, by decide, ?_, ?_⟩
  · norm_num [WIDTH]
  · norm_num [HEIGHT]

/-- C10: the grid constants fit their integer types: `WIDTH - 1` and
`HEIGHT - 1` are at most `2^31 - 1` (signed 32-bit `int`), the pixel count
`WIDTH * HEIGHT = 2^28` is unchanged by reduction modulo `2^32` and is below
`2^31`, and `MAX_ITERS ≤ MAX_COLOR ≤ 255`, so a count capped at `MAX_ITERS`
fits in an unsigned 8-bit value. -/
theorem grid_constants_fit :
    WIDTH - 1 ≤ 2 ^ 31 - 1 ∧ HEIGHT - 1 ≤ 2 ^ 31 - 1 ∧
    WIDTH * HEIGHT = 2 ^ 28 ∧
    (WIDTH * HEIGHT) % 2 ^ 32 = WIDTH * HEIGHT ∧
    WIDTH * HEIGHT < 2 ^ 31 ∧
    MAX_ITERS ≤ MAX_COLOR ∧ MAX_COLOR ≤ 255 ∧
    (∀ n : Nat, n ≤ MAX_ITERS → n % 2 ^ 8 = n) := by
  refine ⟨by decide, by decide, by decide, by decide, by decide, by decide,
    by decide, ?_⟩
  intro n hn
  have : n ≤ 100 := hn
  omega

/-! ## Binary64 values of the constants -/

theorem roundHalfEven_of_lt {x : ℚ} (m : Int) (h1 : (m : ℚ) - 1 / 2 < x)
    (h2 : x < (m : ℚ) + 1 / 2) : roundHalfEven x = m := by
  unfold roundHalfEven
  rcases le_or_lt (m : ℚ) x with h | h
  · have hf : ⌊x⌋ = m := Int.floor_eq_iff.mpr ⟨h, by linarith⟩
    rw [hf, if_pos (by linarith)]
  · have hf : ⌊x⌋ = m - 1 :=
      Int.floor_eq_iff.mpr ⟨by push_cast; linarith, by push_cast; linarith⟩
    rw [hf]
    push_cast
    rw [if_neg (by linarith), if_pos (by linarith)]
    ring

theorem roundHalfEven_tie_odd {x : ℚ} (m : Int) (h : x = (m : ℚ) + 1 / 2)
    (hm : m % 2 = 1) : roundHalfEven x = m + 1 := by
  unfold roundHalfEven
  have hf : ⌊x⌋ = m := Int.floor_eq_iff.mpr ⟨by linarith, by linarith⟩
  rw [hf, if_neg (by linarith), if_neg (by linarith), if_neg (by omega)]

/-- Evaluation of `toBinary64` once the binade `e` and the rounded
significand `m` are known. -/
theorem toBinary64_eq {x : ℚ} (e m : Int) (hlo : (2 : ℚ) ^ e ≤ |x|)
    (hhi : |x| < (2 : ℚ) ^ (e + 1))
    (hm : roundHalfEven (x / 2 ^ (e - 52)) = m) :
    toBinary64 x = (m : ℚ) * 2 ^ (e - 52) := by
  have hpos : 0 < |x| := lt_of_lt_of_le (by positivity) hlo
  have hx : x ≠ 0 := abs_pos.mp hpos
  have hlog : Int.log 2 |x| = e := by
    apply le_antisymm
    · have := (Int.lt_zpow_iff_log_lt (by norm_num : 1 < 2) hpos).mp (by exact_mod_cast hhi)
      omega
    · exact (Int.zpow_le_iff_le_log (by norm_num : 1 < 2) hpos).mp (by exact_mod_cast hlo)
  unfold toBinary64
  rw [if_neg hx, hlog, hm]

theorem xmin64_val : xmin64 = -7656119366529843 / 2 ^ 52 := by
  unfold xmin64
  rw [toBinary64_eq 0 (-7656119366529843)]
  · norm_num
  · norm_num [abs_of_neg]
  · norm_num [abs_of_neg]
  · apply roundHalfEven_of_lt <;> norm_num

theorem xmax64_val : xmax64 = 1 / 2 := by
  unfold xmax64
  rw [toBinary64_eq (-1) 4503599627370496]
  · norm_num
  · norm_num [abs_of_pos]
  · norm_num [abs_of_pos]
  · apply roundHalfEven_of_lt <;> norm_num

theorem ymin64_val : ymin64 = -5404319552844595 / 2 ^ 52 := by
  unfold ymin64
  rw [toBinary64_eq 0 (-5404319552844595)]
  · norm_num
  · norm_num [abs_of_neg]
  · norm_num [abs_of_neg]
  · apply roundHalfEven_of_lt <;> norm_num

theorem ymax64_val : ymax64 = 5404319552844595 / 2 ^ 52 := by
  unfold ymax64
  rw [toBinary64_eq 0 5404319552844595]
  · norm_num
  · norm_num [abs_of_pos]
  · norm_num [abs_of_pos]
  · apply roundHalfEven_of_lt <;> norm_num

theorem dx64_val : dx64 = 2476979795053773 / 2 ^ 64 := by
  have h1 : toBinary64 (xmax64 - xmin64) = 2476979795053773 / 2 ^ 50 := by
    rw [xmax64_val, xmin64_val, toBinary64_eq 1 4953959590107546]
    · norm_num
    · norm_num [abs_of_pos]
    · norm_num [abs_of_pos]
    · have : roundHalfEven ((1 / 2 - -7656119366529843 / 2 ^ 52) / 2 ^ ((1 : Int) - 52))
          = 4953959590107545 + 1 :=
        roundHalfEven_tie_odd 4953959590107545 (by norm_num) (by decide)
      rw [this]; norm_num
  unfold dx64
  rw [h1, toBinary64_eq (-13) 4953959590107546]
  · norm_num [WIDTH]
  · norm_num [WIDTH, abs_of_pos]
  · norm_num [WIDTH, abs_of_pos]
  · apply roundHalfEven_of_lt <;> norm_num [WIDTH]

theorem dy64_val : dy64 = 5404319552844595 / 2 ^ 65 := by
  have h1 : toBinary64 (ymax64 - ymin64) = 5404319552844595 / 2 ^ 51 := by
    rw [ymax64_val, ymin64_val, toBinary64_eq 1 5404319552844595]
    · norm_num
    · norm_num [abs_of_pos]
    · norm_num [abs_of_pos]
    · apply roundHalfEven_of_lt <;> norm_num
  unfold dy64
  rw [h1, toBinary64_eq (-13) 5404319552844595]
  · norm_num [HEIGHT]
  · norm_num [HEIGHT, abs_of_pos]
  · norm_num [HEIGHT, abs_of_pos]
  · apply roundHalfEven_of_lt <;> norm_num [HEIGHT]

/-! ## The pixel-to-plane map -/

theorem pixelPoint_fst (Px Py : Int) :
    (pixelPoint Px Py).1 = (11 * (Px : ℚ) - 139264) / 81920 := by
  simp only [pixelPoint, dx_val, xmin]
  norm_num
  ring

theorem pixelPoint_snd (Px Py : Int) :
    (pixelPoint Px Py).2 = (3 * (Py : ℚ) - 24576) / 20480 := by
  simp only [pixelPoint, dy_val, ymin]
  norm_num
  ring

/-! ## The corner pixels in the binary64 reading -/

theorem toBinary64_zero : toBinary64 0 = 0 := by
  simp [toBinary64]

theorem toBinary64_xmin64 : toBinary64 xmin64 = xmin64 := by
  rw [xmin64_val, toBinary64_eq 0 (-7656119366529843)]
  · norm_num
  · norm_num [abs_of_neg]
  · norm_num [abs_of_neg]
  · apply roundHalfEven_of_lt <;> norm_num

theorem toBinary64_ymin64 : toBinary64 ymin64 = ymin64 := by
  rw [ymin64_val, toBinary64_eq 0 (-5404319552844595)]
  · norm_num
  · norm_num [abs_of_neg]
  · norm_num [abs_of_neg]
  · apply roundHalfEven_of_lt <;> norm_num

theorem pixelPoint64_origin : pixelPoint64 0 0 = (xmin64, ymin64) := by
  simp [pixelPoint64, toBinary64_zero, toBinary64_xmin64, toBinary64_ymin64]

theorem pixelPoint64_corner :
    pixelPoint64 ((WIDTH : Int) - 1) ((HEIGHT : Int) - 1) =
      (2251195082289973 / 2 ^ 52, 5403659845867929 / 2 ^ 52) := by
  have hx1 : toBinary64 ((((WIDTH : Int) - 1 : Int) : ℚ) * dx64) = 1238414306102477 / 2 ^ 49 := by
    rw [dx64_val, toBinary64_eq 1 4953657224409908]
    · norm_num
    · norm_num [WIDTH, abs_of_pos]
    · norm_num [WIDTH, abs_of_pos]
    · apply roundHalfEven_of_lt <;> norm_num [WIDTH]
  have hy1 : toBinary64 ((((HEIGHT : Int) - 1 : Int) : ℚ) * dy64) = 2701994849678131 / 2 ^ 50 := by
    rw [dy64_val, toBinary64_eq 1 5403989699356262]
    · norm_num
    · norm_num [HEIGHT, abs_of_pos]
    · norm_num [HEIGHT, abs_of_pos]
    · apply roundHalfEven_of_lt <;> norm_num [HEIGHT]
  have hx2 : toBinary64 (xmin64 + 1238414306102477 / 2 ^ 49) = 2251195082289973 / 2 ^ 52 := by
    rw [xmin64_val, toBinary64_eq (-2) 9004780329159892]
    · norm_num
    · norm_num [abs_of_pos]
    · norm_num [abs_of_pos]
    · apply roundHalfEven_of_lt <;> norm_num
  have hy2 : toBinary64 (ymin64 + 2701994849678131 / 2 ^ 50) = 5403659845867929 / 2 ^ 52 := by
    rw [ymin64_val, toBinary64_eq 0 5403659845867929]
    · norm_num
    · norm_num [abs_of_pos]
    · norm_num [abs_of_pos]
    · apply roundHalfEven_of_lt <;> norm_num
  unfold pixelPoint64
  rw [hx1, hy1, hx2, hy2]

theorem pixelPoint64Exact_corner :
    pixelPoint64Exact ((WIDTH : Int) - 1) ((HEIGHT : Int) - 1) =
      (9220895057059726131 / 2 ^ 64, 44266781457350077645 / 2 ^ 65) := by
  simp only [pixelPoint64Exact, xmin64_val, ymin64_val, dx64_val, dy64_val, WIDTH, HEIGHT]
  norm_num

theorem pixelPoint64Fused_corner :
    pixelPoint64Fused ((WIDTH : Int) - 1) ((HEIGHT : Int) - 1) =
      (9004780329159889 / 2 ^ 54, 5403659845867929 / 2 ^ 52) := by
  have hx : toBinary64 (xmin64 + (((WIDTH : Int) - 1 : Int) : ℚ) * dx64)
      = 9004780329159889 / 2 ^ 54 := by
    rw [xmin64_val, dx64_val, toBinary64_eq (-2) 9004780329159889]
    · norm_num
    · norm_num [WIDTH, abs_of_pos]
    · norm_num [WIDTH, abs_of_pos]
    · apply roundHalfEven_of_lt <;> norm_num [WIDTH]
  have hy : toBinary64 (ymin64 + (((HEIGHT : Int) - 1 : Int) : ℚ) * dy64)
      = 5403659845867929 / 2 ^ 52 := by
    rw [ymin64_val, dy64_val, toBinary64_eq 0 5403659845867929]
    · norm_num
    · norm_num [HEIGHT, abs_of_pos]
    · norm_num [HEIGHT, abs_of_pos]
    · apply roundHalfEven_of_lt <;> norm_num [HEIGHT]
  unfold pixelPoint64Fused
  rw [hx, hy]

theorem xmax64_sub_dx64 : toBinary64 (xmax64 - dx64) = 9004780329159885 / 2 ^ 54 := by
  rw [xmax64_val, dx64_val, toBinary64_eq (-2) 9004780329159885]
  · norm_num
  · norm_num [abs_of_pos]
  · norm_num [abs_of_pos]
  · apply roundHalfEven_of_lt <;> norm_num

theorem ymax64_sub_dy64 : toBinary64 (ymax64 - dy64) = 5403659845867929 / 2 ^ 52 := by
  rw [ymax64_val, dy64_val, toBinary64_eq 0 5403659845867929]
  · norm_num
  · norm_num [abs_of_pos]
  · norm_num [abs_of_pos]
  · apply roundHalfEven_of_lt <;> norm_num

/-- C3, as stated, fails for the constants the header stores: with the
binary64 values of `xmin`, `xmax`, `ymin`, `ymax`, `dx`, `dy`, the point
`c(WIDTH-1, HEIGHT-1)` is not `(xmax - dx, ymax - dy)`, whether the map is
evaluated in `double` arithmetic, with a fused multiply-add, or exactly. -/
theorem pixelPoint_corner_stored_ne :
    pixelPoint64 ((WIDTH : Int) - 1) ((HEIGHT : Int) - 1) ≠
      (toBinary64 (xmax64 - dx64), toBinary64 (ymax64 - dy64)) ∧
    pixelPoint64Fused ((WIDTH : Int) - 1) ((HEIGHT : Int) - 1) ≠
      (toBinary64 (xmax64 - dx64), toBinary64 (ymax64 - dy64)) ∧
    pixelPoint64Exact ((WIDTH : Int) - 1) ((HEIGHT : Int) - 1) ≠
      (xmax64 - dx64, ymax64 - dy64) := by
  refine ⟨?_, ?_, ?_⟩
  · rw [pixelPoint64_corner, xmax64_sub_dx64, ymax64_sub_dy64]
    intro h
    have h1 := congrArg Prod.fst h
    norm_num at h1
  · rw [pixelPoint64Fused_corner, xmax64_sub_dx64, ymax64_sub_dy64]
    intro h
    have h1 := congrArg Prod.fst h
    norm_num at h1
  · rw [pixelPoint64Exact_corner, xmax64_val, dx64_val, ymax64_val, dy64_val]
    intro h
    have h1 := congrArg Prod.fst h
    norm_num at h1

/-- C3, amended: with the decimal literals read as exact rationals,
`c(0, 0) = (xmin, ymin) = (-1.7, -1.2)` and
`c(WIDTH-1, HEIGHT-1) = (xmax - dx, ymax - dy)`, strictly below `(xmax, ymax)`
in both coordinates. With the binary64 values the header stores,
`c(0, 0) = (xmin, ymin)` and `c(WIDTH-1, HEIGHT-1)` is still strictly below
`(xmax, ymax)` in both coordinates; its y coordinate is `ymax - dy`, but its
x coordinate lies above `xmax - dx`: by `7 * 2^-54` in `double` arithmetic,
by `2^-52` with a fused multiply-add or in exact arithmetic. -/
theorem pixelPoint_corners_by_reading :
    (pixelPoint 0 0 = (xmin, ymin) ∧ (xmin, ymin) = ((-1.7 : ℚ), (-1.2 : ℚ)) ∧
      pixelPoint ((WIDTH : Int) - 1) ((HEIGHT : Int) - 1) = (xmax - dx, ymax - dy) ∧
      xmax - dx < xmax ∧ ymax - dy < ymax) ∧
    (pixelPoint64 0 0 = (xmin64, ymin64) ∧
      (xmin64, ymin64) = (toBinary64 (-1.7), toBinary64 (-1.2)) ∧
      (pixelPoint64 ((WIDTH : Int) - 1) ((HEIGHT : Int) - 1)).1 < xmax64 ∧
      (pixelPoint64 ((WIDTH : Int) - 1) ((HEIGHT : Int) - 1)).2 < ymax64 ∧
      (pixelPoint64 ((WIDTH : Int) - 1) ((HEIGHT : Int) - 1)).1 =
        toBinary64 (xmax64 - dx64) + 7 / 2 ^ 54 ∧
      (pixelPoint64 ((WIDTH : Int) - 1) ((HEIGHT : Int) - 1)).2 =
        toBinary64 (ymax64 - dy64)) ∧
    ((pixelPoint64Fused ((WIDTH : Int) - 1) ((HEIGHT : Int) - 1)).1 < xmax64 ∧
      (pixelPoint64Fused ((WIDTH : Int) - 1) ((HEIGHT : Int) - 1)).2 < ymax64 ∧
      (pixelPoint64Fused ((WIDTH : Int) - 1) ((HEIGHT : Int) - 1)).1 =
        toBinary64 (xmax64 - dx64) + 1 / 2 ^ 52 ∧
      (pixelPoint64Fused ((WIDTH : Int) - 1) ((HEIGHT : Int) - 1)).2 =
        toBinary64 (ymax64 - dy64)) ∧
    (pixelPoint64Exact 0 0 = (xmin64, ymin64) ∧
      (pixelPoint64Exact ((WIDTH : Int) - 1) ((HEIGHT : Int) - 1)).1 < xmax64 ∧
      (pixelPoint64Exact ((WIDTH : Int) - 1) ((HEIGHT : Int) - 1)).2 < ymax64 ∧
      (pixelPoint64Exact ((WIDTH : Int) - 1) ((HEIGHT : Int) - 1)).1 =
        xmax64 - dx64 + 1 / 2 ^ 52 ∧
      (pixelPoint64Exact ((WIDTH : Int) - 1) ((HEIGHT : Int) - 1)).2 =
        ymax64 - dy64) := by
  refine ⟨⟨?_, rfl, ?_, ?_, ?_⟩, ⟨pixelPoint64_origin, rfl, ?_, ?_, ?_, ?_⟩,
    ⟨?_, ?_, ?_, ?_⟩, ⟨?_, ?_, ?_, ?_, ?_⟩⟩
  · simp [pixelPoint]
  · simp only [pixelPoint, dx_val, dy_val, xmin, xmax, ymin, ymax, WIDTH, HEIGHT]
    norm_num
  · rw [dx_val]; norm_num
  · rw [dy_val]; norm_num
  · rw [pixelPoint64_corner, xmax64_val]; norm_num
  · rw [pixelPoint64_corner, ymax64_val]; norm_num
  · rw [pixelPoint64_corner, xmax64_sub_dx64]; norm_num
  · rw [pixelPoint64_corner, ymax64_sub_dy64]
  · rw [pixelPoint64Fused_corner, xmax64_val]; norm_num
  · rw [pixelPoint64Fused_corner, ymax64_val]; norm_num
  · rw [pixelPoint64Fused_corner, xmax64_sub_dx64]; norm_num
  · rw [pixelPoint64Fused_corner, ymax64_sub_dy64]
  · simp [pixelPoint64Exact]
  · rw [pixelPoint64Exact_corner, xmax64_val]; norm_num
  · rw [pixelPoint64Exact_corner, ymax64_val]; norm_num
  · rw [pixelPoint64Exact_corner, xmax64_val, dx64_val]; norm_num
  · rw [pixelPoint64Exact_corner, ymax64_val, dy64_val]; norm_num

/-- C9: every in-range pixel maps inside the half-open window,
`xmin ≤ xmin + Px*dx < xmax` and `ymin ≤ ymin + Py*dy < ymax`; the map is
strictly increasing in each coordinate, so distinct pixels map to distinct
points (over exact rationals). -/
theorem pixelPoint_in_window_strictMono :
    (∀ Px Py : Int, 0 ≤ Px → Px < (WIDTH : Int) → 0 ≤ Py → Py < (HEIGHT : Int) →
      xmin ≤ (pixelPoint Px Py).1 ∧ (pixelPoint Px Py).1 < xmax ∧
      ymin ≤ (pixelPoint Px Py).2 ∧ (pixelPoint Px Py).2 < ymax) ∧
    (∀ Px Qx Py Qy : Int, Px < Qx → (pixelPoint Px Py).1 < (pixelPoint Qx Qy).1) ∧
    (∀ Px Qx Py Qy : Int, Py < Qy → (pixelPoint Px Py).2 < (pixelPoint Qx Qy).2) ∧
    (∀ Px Py Qx Qy : Int, pixelPoint Px Py = pixelPoint Qx Qy → Px = Qx ∧ Py = Qy) := by
  refine ⟨?_, ?_, ?_, ?_⟩
  · intro Px Py hx0 hx1 hy0 hy1
    have hx0' : (0 : ℚ) ≤ (Px : ℚ) := by exact_mod_cast hx0
    have hy0' : (0 : ℚ) ≤ (Py : ℚ) := by exact_mod_cast hy0
    have hx1' : (Px : ℚ) < 16384 := by
      have : Px < 16384 := hx1
      exact_mod_cast this
    have hy1' : (Py : ℚ) < 16384 := by
      have : Py < 16384 := hy1
      exact_mod_cast this
    rw [pixelPoint_fst, pixelPoint_snd]
    simp only [xmin, xmax, ymin, ymax]
    refine ⟨?_, ?_, ?_, ?_⟩
    · rw [le_div_iff₀ (by norm_num)]; norm_num; linarith
    · rw [div_lt_iff₀ (by norm_num)]; norm_num; linarith
    · rw [le_div_iff₀ (by norm_num)]; norm_num; linarith
    · rw [div_lt_iff₀ (by norm_num)]; norm_num; linarith
  · intro Px Qx Py Qy h
    have h' : (Px : ℚ) < (Qx : ℚ) := by exact_mod_cast h
    rw [pixelPoint_fst, pixelPoint_fst]
    apply div_lt_div_of_pos_right _ (by norm_num)
    linarith
  · intro Px Qx Py Qy h
    have h' : (Py : ℚ) < (Qy : ℚ) := by exact_mod_cast h
    rw [pixelPoint_snd, pixelPoint_snd]
    apply div_lt_div_of_pos_right _ (by norm_num)
    linarith
  · intro Px Py Qx Qy h
    have h1 : (pixelPoint Px Py).1 = (pixelPoint Qx Qy).1 := by rw [h]
    have h2 : (pixelPoint Px Py).2 = (pixelPoint Qx Qy).2 := by rw [h]
    rw [pixelPoint_fst, pixelPoint_fst] at h1
    rw [pixelPoint_snd, pixelPoint_snd] at h2
    have e1 : (Px : ℚ) = (Qx : ℚ) := by
      have := (div_left_inj' (by norm_num : (81920 : ℚ) ≠ 0)).mp h1
      linarith
    have e2 : (Py : ℚ) = (Qy : ℚ) := by
      have := (div_left_inj' (by norm_num : (20480 : ℚ) ≠ 0)).mp h2
      linarith
    exact ⟨by exact_mod_cast e1, by exact_mod_cast e2⟩

theorem pixelPoint_in_window_strictMono_witness :
    (xmin ≤ (pixelPoint 5 7).1 ∧ (pixelPoint 5 7).1 < xmax ∧
      ymin ≤ (pixelPoint 5 7).2 ∧ (pixelPoint 5 7).2 < ymax) ∧
    (pixelPoint 5 7).1 < (pixelPoint 6 7).1 ∧
    (pixelPoint 5 7).2 < (pixelPoint 5 8).2 :=
  ⟨pixelPoint_in_window_strictMono.1 5 7 (by decide) (by decide) (by decide) (by decide),
   pixelPoint_in_window_strictMono.2.1 5 6 7 7 (by decide),
   pixelPoint_in_window_strictMono.2.2.1 5 5 7 8 (by decide)⟩

/-! ## The escape-time loop -/

theorem escapeLoop_le (c : ℚ × ℚ) (fuel : Nat) (z : ℚ × ℚ) :
    escapeLoop c fuel z ≤ fuel := by
  induction fuel generalizing z with
  | zero => simp [escapeLoop]
  | succ n ih =>
    simp only [escapeLoop]
    split
    · exact Nat.zero_le _
    · exact Nat.succ_le_succ (ih _)

theorem escapeCount_le (c : ℚ × ℚ) : escapeCount c ≤ MAX_ITERS :=
  escapeLoop_le c MAX_ITERS (0, 0)

theorem linearColor_le {n : Nat} (h : n ≤ MAX_ITERS) : linearColor n ≤ MAX_COLOR := by
  have h' : n ≤ 100 := h
  simp only [linearColor, MAX_COLOR, MAX_ITERS]
  omega

/-- C2: for all `Px` with `0 ≤ Px < WIDTH` and `Py` with `0 ≤ Py < HEIGHT`,
`mandelbrot(Px, Py)` returns a value `v` with `0 ≤ v ≤ MAX_COLOR`, where
`MAX_COLOR = 255` is the largest unsigned 8-bit value. -/
theorem mandelbrot_in_color_range (Px Py : Int) :
    0 ≤ Px → Px < (WIDTH : Int) → 0 ≤ Py → Py < (HEIGHT : Int) →
    0 ≤ mandelbrot Px Py ∧ mandelbrot Px Py ≤ MAX_COLOR ∧ MAX_COLOR = 2 ^ 8 - 1 := by
  intro _ _ _ _
  have hc : linearColor (escapeCount (pixelPoint Px Py)) ≤ MAX_COLOR :=
    linearColor_le (escapeCount_le _)
  refine ⟨Nat.zero_le _, ?_, rfl⟩
  unfold mandelbrot toUChar
  exact le_trans (Nat.mod_le _ _) hc

theorem mandelbrot_in_color_range_witness :
    0 ≤ mandelbrot 3 4 ∧ mandelbrot 3 4 ≤ MAX_COLOR ∧ MAX_COLOR = 2 ^ 8 - 1 :=
  mandelbrot_in_color_range 3 4 (by decide) (by decide) (by decide) (by decide)

/-! ## The pixel nearest the origin -/

theorem pixelPoint_center : pixelPoint 12660 8192 = (-1 / 20480, 0) := by
  apply Prod.ext
  · rw [pixelPoint_fst]; norm_num
  · rw [pixelPoint_snd]; norm_num

/-- On the real axis, an orbit of `c = -1/20480` that lies in `[-1/20480, 0]`
stays there and never leaves the disc of radius 2, so the loop runs out of
fuel. -/
theorem escapeLoop_center (fuel : Nat) (z : ℚ × ℚ)
    (h1 : -1 / 20480 ≤ z.1) (h2 : z.1 ≤ 0) (h3 : z.2 = 0) :
    escapeLoop (-1 / 20480, 0) fuel z = fuel := by
  induction fuel generalizing z with
  | zero => simp [escapeLoop]
  | succ n ih =>
    have hsq : z.1 * z.1 ≤ 1 / 20480 := by nlinarith
    have hn : ¬ (4 < normSq z) := by
      simp only [normSq, h3]
      nlinarith
    simp only [escapeLoop, if_neg hn]
    rw [ih (escapeStep (-1 / 20480, 0) z)]
    · simp only [escapeStep, h3]; nlinarith
    · simp only [escapeStep, h3]; nlinarith
    · simp [escapeStep, h3]

theorem sq_dist_x (Px : Int) : 16 ≤ (11 * Px - 139264) * (11 * Px - 139264) := by
  rcases le_or_lt Px 12660 with h | h
  · nlinarith
  · nlinarith

theorem sq_dist_x_eq (Px : Int)
    (h : (11 * Px - 139264) * (11 * Px - 139264) ≤ 16) : Px = 12660 := by
  rcases lt_trichotomy Px 12660 with h1 | h1 | h1
  · nlinarith
  · exact h1
  · nlinarith

theorem normSq_pixelPoint (Px Py : Int) :
    normSq (pixelPoint Px Py) =
      ((((11 * Px - 139264) * (11 * Px - 139264) : Int) : ℚ) +
        16 * (((3 * Py - 24576) * (3 * Py - 24576) : Int) : ℚ)) / 6710886400 := by
  simp only [normSq, pixelPoint_fst, pixelPoint_snd]
  push_cast
  ring

/-- C8: the in-range pixel whose mapped point is closest to `c = 0` is
`(12660, 8192)`; for it the recurrence `z ← z² + c` from `z = 0` does not
escape within `MAX_ITERS = 100` iterations, and `mandelbrot` returns the
maximum colour value 255. -/
theorem mandelbrot_center_max_color :
    (0 ≤ (12660 : Int) ∧ (12660 : Int) < (WIDTH : Int) ∧
      0 ≤ (8192 : Int) ∧ (8192 : Int) < (HEIGHT : Int)) ∧
    (∀ Px Py : Int, 0 ≤ Px → Px < (WIDTH : Int) → 0 ≤ Py → Py < (HEIGHT : Int) →
      normSq (pixelPoint 12660 8192) ≤ normSq (pixelPoint Px Py) ∧
      (normSq (pixelPoint Px Py) ≤ normSq (pixelPoint 12660 8192) →
        Px = 12660 ∧ Py = 8192)) ∧
    escapeCount (pixelPoint 12660 8192) = MAX_ITERS ∧ MAX_ITERS = 100 ∧
    mandelbrot 12660 8192 = 255 ∧ MAX_COLOR = 255 := by
  have hcount : escapeCount (pixelPoint 12660 8192) = MAX_ITERS := by
    rw [pixelPoint_center]
    exact escapeLoop_center MAX_ITERS (0, 0) (by norm_num) (by norm_num) rfl
  refine ⟨⟨by decide, by decide, by decide, by decide⟩, ?_, hcount, rfl, ?_, rfl⟩
  · intro Px Py _ _ _ _
    have hx := sq_dist_x Px
    have hy : 0 ≤ (3 * Py - 24576) * (3 * Py - 24576) := mul_self_nonneg _
    have hc : normSq (pixelPoint 12660 8192) = 16 / 6710886400 := by
      rw [pixelPoint_center]; norm_num [normSq]
    rw [hc, normSq_pixelPoint]
    have hxq : (16 : ℚ) ≤ (((11 * Px - 139264) * (11 * Px - 139264) : Int) : ℚ) := by
      exact_mod_cast hx
    have hyq : (0 : ℚ) ≤ (((3 * Py - 24576) * (3 * Py - 24576) : Int) : ℚ) := by
      exact_mod_cast hy
    constructor
    · apply div_le_div_of_nonneg_right _ (by norm_num)
      linarith
    · intro hle
      have hle' := (div_le_div_iff_of_pos_right (by norm_num : (0 : ℚ) < 6710886400)).mp hle
      have hx16 : (((11 * Px - 139264) * (11 * Px - 139264) : Int) : ℚ) ≤ 16 := by linarith
      have hy0 : (((3 * Py - 24576) * (3 * Py - 24576) : Int) : ℚ) ≤ 0 := by linarith
      have hxi : (11 * Px - 139264) * (11 * Px - 139264) ≤ 16 := by exact_mod_cast hx16
      have hyi : (3 * Py - 24576) * (3 * Py - 24576) ≤ 0 := by exact_mod_cast hy0
      refine ⟨sq_dist_x_eq Px hxi, ?_⟩
      have hz : 3 * Py - 24576 = 0 := by
        have := le_antisymm hyi hy
        exact mul_self_eq_zero.mp this
      omega
  · unfold mandelbrot
    rw [hcount]
    decide

theorem mandelbrot_center_max_color_witness :
    normSq (pixelPoint 12660 8192) ≤ normSq (pixelPoint 12661 8192) :=
  (mandelbrot_center_max_color.2.1 12661 8192
    (by decide) (by decide) (by decide) (by decide)).1

end Mandelbrot
